import Mathlib

/-!
Shallow embedding of the FraudGuard front-end pipeline from
`src/frontend/script.js`: CSV parsing (`parseCSV`), risk scoring
(`calculateRiskScore`), classification (`determineFraudStatus`,
`getRiskLevel`), the analysis pipeline (`performAnalysis`), the results
view (`displayResults`, `filterResults`, `searchTransactions`,
`initResultsPage`) and the CSV export (`exportToCSV`).

Modelling conventions:
* JavaScript strings are lists of characters (`Str`); row records are
  association lists from column name to value, looked up with the
  last-binding-wins rule of JavaScript object assignment.
* JavaScript numbers are rationals (`ℚ`) where fractional values occur
  and integers (`ℤ`) where the code only ever produces integers.
* Host primitives that are not part of the repository are parameters of
  the embedding: `parseFloat` and the local-hour extraction of `Date`
  live in a `JSEnv` (returning `none` for `NaN`), the `Math.random`
  draws consumed by the scorer and the indicator generator are explicit
  arguments, and `JSON.parse` is a parameter of `initResultsPage`.
-/

/-- JavaScript strings, modelled as lists of characters. -/
abbrev Str := List Char

/-- Coerce a Lean string literal into the `Str` model. -/
def str (s : String) : Str := s.toList

/-- Whitespace test used by the model of `String.prototype.trim`. -/
def jsIsSpace (c : Char) : Bool := c.isWhitespace

/-- Model of `String.prototype.trim`: drop whitespace from both ends. -/
def trimChars (s : Str) : Str := (s.dropWhile jsIsSpace).rdropWhile jsIsSpace

/-- Helper for `splitOnChar`: returns the chunk before the first
separator together with the list of remaining chunks. -/
def splitOnCharAux (sep : Char) : Str → Str × List Str
  | [] => ([], [])
  | c :: cs =>
    let r := splitOnCharAux sep cs
    if c = sep then ([], r.1 :: r.2) else (c :: r.1, r.2)

/-- Model of `s.split(sep)` for a one-character separator, as used by
`parseCSV` with `'\n'` and `','`.  Like the JavaScript original it
returns `[""]` on the empty string and never returns an empty list. -/
def splitOnChar (sep : Char) (s : Str) : List Str :=
  (splitOnCharAux sep s).1 :: (splitOnCharAux sep s).2

/-- Model of `Array.prototype.join(sep)` for a one-character separator,
as used by `exportToCSV` with `','` and `'\n'`. -/
def joinChar (sep : Char) : List Str → Str
  | [] => []
  | [x] => x
  | x :: y :: ys => x ++ sep :: joinChar sep (y :: ys)

/-- Does `s` start with `pre`?  Helper for the `includes` model. -/
def strStartsWith : Str → Str → Bool
  | _, [] => true
  | [], _ :: _ => false
  | c :: cs, d :: ds => (c = d) && strStartsWith cs ds

/-- Model of `s.includes(sub)`: case-sensitive substring containment. -/
def jsIncludes (s sub : Str) : Bool :=
  match s with
  | [] => strStartsWith [] sub
  | c :: cs => strStartsWith (c :: cs) sub || jsIncludes cs sub

/-- Model of `String.prototype.toLowerCase` (character-wise). -/
def jsToLower (s : Str) : Str := s.map Char.toLower

/-- Fuel-driven decimal digit expansion of a natural number. -/
def natToDigitsAux : ℕ → ℕ → Str
  | 0, _ => []
  | fuel + 1, n =>
    if n < 10 then [Nat.digitChar n]
    else natToDigitsAux fuel (n / 10) ++ [Nat.digitChar (n % 10)]

/-- Decimal string of a natural number (JavaScript number-to-string for
non-negative integral values). -/
def natToStr (n : ℕ) : Str := natToDigitsAux (n + 1) n

/-- Decimal string of an integer (JavaScript number-to-string for
integral values, as used when `row.join(',')` stringifies `riskScore`). -/
def intToStr : ℤ → Str
  | Int.ofNat n => natToStr n
  | Int.negSucc m => '-' :: natToStr (m + 1)

/-- A Raw Row: association list from column name to string value, in
header order.  JavaScript object lookup is modelled by `jsGet`. -/
abbrev Row := List (Str × Str)

/-- Model of JavaScript property read `row[k]`: the last binding wins,
mirroring repeated assignment `row[header] = value` for duplicate
headers; `none` models `undefined`. -/
def jsGet (t : Row) (k : Str) : Option Str :=
  (t.reverse.find? (fun p => p.1 == k)).map (fun p => p.2)

/-- Property read with a default, modelling `row[k] || d` (both a
missing key and the empty string yield the default for `d = ""`). -/
def jsGetD (t : Row) (k : Str) (d : Str) : Str := (jsGet t k).getD d

/-- Row construction in `parseCSV`:
`headers.forEach((header, index) => row[header] = values[index] || '')`.
A missing value for a trailing column becomes the empty string. -/
def mkRow (headers values : List Str) : Row :=
  headers.enum.map (fun p => (p.2, values.getD p.1 []))

/-- The line list of `parseCSV`: `content.trim().split('\n')`. -/
def jsLines (content : Str) : List Str := splitOnChar '\n' (trimChars content)

/-- The header list of `parseCSV`:
`lines[0].split(',').map(h => h.trim())`.  (`jsLines` never returns an
empty list, so `headD` matches `lines[0]`.) -/
def csvHeaders (content : Str) : List Str :=
  (splitOnChar ',' ((jsLines content).headD [])).map trimChars

/-- Model of `parseCSV` (script.js lines 25-44): every line after the
header that does not trim to empty is comma-split, field-trimmed and
zipped positionally against the headers. -/
def parseCSV (content : Str) : List Row :=
  (((jsLines content).drop 1).filter (fun l => !(trimChars l).isEmpty)).map
    (fun l => mkRow (csvHeaders content) ((splitOnChar ',' l).map trimChars))

/-- Host-environment primitives used by the scorer: `parseFloat`
(returning `none` for `NaN`) and the local-hour component of
`new Date(s).getHours()` (returning `none` when the date is invalid). -/
structure JSEnv where
  parseFloat : Str → Option ℚ
  dateLocalHour : Str → Option ℤ

/-- Model of `Math.round`: round half toward positive infinity. -/
def jsRound (q : ℚ) : ℤ := ⌊q + 1 / 2⌋

/-- The amount used by the scorer:
`parseFloat(transaction.amount) || 0` (a missing field or an unparsable
string contributes `0`). -/
def amountOf (env : JSEnv) (t : Row) : ℚ :=
  match jsGet t (str "amount") with
  | none => 0
  | some s => (env.parseFloat s).getD 0

/-- The amount-based risk contribution of `calculateRiskScore`. -/
def amountTier (amount : ℚ) : ℚ :=
  if amount > 5000 then 30
  else if amount > 2000 then 20
  else if amount > 1000 then 10
  else if amount < 10 then 15
  else 0

/-- The fixed denylist `highRiskLocations` of `calculateRiskScore`. -/
def highRiskLocations : List Str :=
  [str "Nigeria", str "Russia", str "Ukraine", str "Unknown"]

/-- Model of `transaction.location?.includes(loc)`: `undefined` is
falsy, otherwise substring containment. -/
def jsOptIncludes (o : Option Str) (sub : Str) : Bool :=
  match o with
  | none => false
  | some s => jsIncludes s sub

/-- The location-based risk contribution of `calculateRiskScore`:
`+25` when the `location` field contains a denylisted substring. -/
def locFlagOf (t : Row) : ℚ :=
  if highRiskLocations.any (fun loc => jsOptIncludes (jsGet t (str "location")) loc)
  then 25 else 0

/-- The time-of-day risk contribution of `calculateRiskScore`: `+15`
when the parsed timestamp has local hour in `[1,5]`; an invalid date
(`getHours()` returning `NaN`) contributes `0`. -/
def timeFlagOf (env : JSEnv) (t : Row) : ℚ :=
  match jsGet t (str "timestamp") with
  | none => 0
  | some s =>
    match env.dateLocalHour s with
    | none => 0
    | some hour => if 1 ≤ hour ∧ hour ≤ 5 then 15 else 0

/-- Model of `calculateRiskScore` (script.js lines 110-138).  `j` is the
value of the `Math.random() * 40` jitter draw.  The accumulated sum is
rounded and capped at 100. -/
def calculateRiskScore (env : JSEnv) (t : Row) (j : ℚ) : ℤ :=
  min (jsRound (amountTier (amountOf env t) + j + locFlagOf t + timeFlagOf env t)) 100

/-- Model of `determineFraudStatus` (script.js lines 145-149). -/
def determineFraudStatus (riskScore : ℤ) : Str :=
  if riskScore ≥ 70 then str "fraud"
  else if riskScore ≥ 50 then str "warning"
  else str "legitimate"

/-- Model of `getRiskLevel` (script.js lines 156-160). -/
def getRiskLevel (riskScore : ℤ) : Str :=
  if riskScore ≥ 70 then str "High"
  else if riskScore ≥ 50 then str "Medium"
  else str "Low"

/-- The fixed catalog of eight indicator strings in
`generateFraudIndicators`. -/
def indicatorCatalog : List Str :=
  [str "Unusual transaction amount",
   str "Suspicious merchant category",
   str "Transaction from high-risk location",
   str "Unusual time of transaction",
   str "Multiple transactions in short period",
   str "Card used in multiple locations",
   str "Velocity check failed",
   str "Amount exceeds normal spending pattern"]

/-- The selection loop of `generateFraudIndicators`: at step `i` it
takes `available[Math.floor(u i * available.length)]` and removes it
from the pool. -/
def pickIndicators (u : ℕ → ℚ) : ℕ → ℕ → List Str → List Str
  | 0, _, _ => []
  | k + 1, i, available =>
    let index := (⌊u i * (available.length : ℚ)⌋).toNat
    available.getD index [] :: pickIndicators u k (i + 1) (available.eraseIdx index)

/-- Model of `generateFraudIndicators` (script.js lines 78-102): the
draw `u 0` fixes the count `Math.floor(u 0 * 3) + 2`, the draws
`u 1, u 2, ...` drive the selection loop. -/
def generateFraudIndicators (u : ℕ → ℚ) : List Str :=
  pickIndicators u ((⌊u 0 * 3⌋).toNat + 2) 1 indicatorCatalog

/-- An Enriched Result: the pushed object
`{...transaction, riskScore, status, indicators, riskLevel}` of
`performAnalysis`.  The original row is kept as the `row` field; the
six transaction columns read back by the export are never shadowed by
the four computed keys, so keeping them separate is faithful. -/
structure EnrichedResult where
  row : Row
  riskScore : ℤ
  status : Str
  indicators : List Str
  riskLevel : Str
deriving DecidableEq

/-- Model of the per-row enrichment loop of `performAnalysis`
(script.js lines 404-415).  `jit i` is the jitter draw consumed by
`calculateRiskScore` on row `i`; `ind i` is the random stream consumed
by `generateFraudIndicators` on row `i` (only used on fraud rows). -/
def performAnalysis (env : JSEnv) (jit : ℕ → ℚ) (ind : ℕ → ℕ → ℚ)
    (rows : List Row) : List EnrichedResult :=
  rows.enum.map (fun p =>
    let riskScore := calculateRiskScore env p.2 (jit p.1)
    let status := determineFraudStatus riskScore
    { row := p.2
      riskScore := riskScore
      status := status
      indicators := if status = str "fraud" then generateFraudIndicators (ind p.1) else []
      riskLevel := getRiskLevel riskScore })

/-- The summary statistics computed by `displayResults` (script.js
lines 462-486).  `fraudRate` is `none` when the division
`fraudCount / totalTransactions` is `0 / 0`, modelling the `NaN` that
`toFixed(1)` then renders as the string `NaN`. -/
structure SummaryStats where
  totalTransactions : ℕ
  fraudCount : ℕ
  legitimateCount : ℕ
  fraudRate : Option ℚ
deriving DecidableEq

/-- Model of the statistics part of `displayResults`: the raw
percentage value `(fraudCount / totalTransactions) * 100` before
`toFixed(1)` formatting, with `none` for `NaN`. -/
def displayResults (results : List EnrichedResult) : SummaryStats :=
  { totalTransactions := results.length
    fraudCount := (results.filter (fun r => r.status == str "fraud")).length
    legitimateCount :=
      (results.filter (fun r =>
        r.status == str "legitimate" || r.status == str "warning")).length
    fraudRate :=
      if results.length = 0 then none
      else some (((results.filter (fun r => r.status == str "fraud")).length : ℚ)
        / (results.length : ℚ) * 100) }

/-- The fixed export header row of `exportToCSV`. -/
def exportHeaders : List Str :=
  [str "Transaction ID", str "Amount", str "Merchant", str "Location",
   str "Timestamp", str "Card Number", str "Risk Score", str "Status"]

/-- Model of `value || ''` for a possibly-missing string property:
`undefined` and the empty string are both falsy. -/
def jsCell (o : Option Str) : Str :=
  match o with
  | none => []
  | some v => if v.isEmpty then [] else v

/-- The Risk Score cell of the export: `transaction.riskScore || ''`.
The number `0` is falsy, so a zero score is emitted as the empty
string; any other score is stringified by `join`. -/
def scoreCell (n : ℤ) : Str := if n = 0 then [] else intToStr n

/-- One exported data row of `exportToCSV` (script.js lines 694-705),
before comma-joining. -/
def exportRow (r : EnrichedResult) : List Str :=
  [jsCell (jsGet r.row (str "transaction_id")),
   jsCell (jsGet r.row (str "amount")),
   jsCell (jsGet r.row (str "merchant")),
   jsCell (jsGet r.row (str "location")),
   jsCell (jsGet r.row (str "timestamp")),
   jsCell (jsGet r.row (str "card_number")),
   scoreCell r.riskScore,
   jsCell (some r.status)]

/-- Model of `exportToCSV` (script.js lines 690-718): the header line
followed by one comma-joined line per result, joined by newlines. -/
def exportToCSV (results : List EnrichedResult) : Str :=
  joinChar '\n'
    (joinChar ',' exportHeaders :: results.map (fun r => joinChar ',' (exportRow r)))

/-- The two persisted entries `fraudGuard_results` and
`fraudGuard_timestamp` of the browser's local storage; `none` models an
absent key. -/
structure Storage where
  results : Option Str
  timestamp : Option Str
deriving DecidableEq

/-- Possible outcomes of the host's `JSON.parse` on the persisted
results string: a thrown `SyntaxError`, an array of results, a falsy
value (`null`, `0`, `false`, `""`), or a truthy non-array value
(which later crashes `displayResults` when `.filter` is called). -/
inductive JsonOutcome where
  | throws
  | arr (rs : List EnrichedResult)
  | falsy
  | truthyOther
deriving DecidableEq

/-- What the results page does after `initResultsPage` runs. -/
inductive PageAction where
  | redirectToUpload
  | display (rs : List EnrichedResult)
  | scriptError
deriving DecidableEq

/-- Model of the overriding `initResultsPage` (script.js lines
776-802): read the persisted results string, parse it, and either
clear both storage entries and redirect, display the results, or — when
`JSON.parse` throws or the parsed value is an unguarded non-array — die
with an uncaught exception, leaving storage untouched.  The returned
`Storage` is the storage state after the call. -/
def initResultsPage (jsonParse : Str → JsonOutcome) (st : Storage) :
    Storage × PageAction :=
  match st.results with
  | none => (⟨none, none⟩, PageAction.redirectToUpload)
  | some s =>
    if s.isEmpty then (⟨none, none⟩, PageAction.redirectToUpload)
    else
      match jsonParse s with
      | JsonOutcome.throws => (st, PageAction.scriptError)
      | JsonOutcome.falsy => (⟨none, none⟩, PageAction.redirectToUpload)
      | JsonOutcome.arr [] => (⟨none, none⟩, PageAction.redirectToUpload)
      | JsonOutcome.arr (r :: rs) => (st, PageAction.display (r :: rs))
      | JsonOutcome.truthyOther => (st, PageAction.scriptError)

/-- One rendered table row of the results table: its `data-status`
attribute, its concatenated visible text (`textContent`), and its
current visibility (`style.display` not set to `none`). -/
structure TableRow where
  status : Str
  text : Str
  visible : Bool
deriving DecidableEq

/-- The status predicate of `filterResults` (script.js lines 570-601):
`all` shows everything, `fraud` shows fraud rows, `legitimate` shows
legitimate and warning rows, anything else hides the row. -/
def statusFilterPred (filter : Str) (status : Str) : Bool :=
  if filter = str "all" then true
  else if filter = str "fraud" then status == str "fraud"
  else if filter = str "legitimate" then
    status == str "legitimate" || status == str "warning"
  else false

/-- Model of `filterResults`: sets every row's visibility from the
status predicate alone, overwriting whatever a previous search set. -/
def filterResults (filter : Str) (rows : List TableRow) : List TableRow :=
  rows.map (fun r => { r with visible := statusFilterPred filter r.status })

/-- The search predicate of `searchTransactions` (script.js lines
808-852): empty trimmed lower-cased term shows the row, otherwise
case-insensitive substring match against the row text. -/
def searchPred (boxValue : Str) (r : TableRow) : Bool :=
  let searchTerm := trimChars (jsToLower boxValue)
  searchTerm.isEmpty || jsIncludes (jsToLower r.text) searchTerm

/-- Model of `searchTransactions`: sets every row's visibility from the
search predicate alone, overwriting whatever the status filter set. -/
def searchTransactions (boxValue : Str) (rows : List TableRow) : List TableRow :=
  rows.map (fun r => { r with visible := searchPred boxValue r })

/-- The six transaction columns of the export paired with the original
lower-case row keys they are read from. -/
def txnFieldPairs : List (Str × Str) :=
  [(str "Transaction ID", str "transaction_id"),
   (str "Amount", str "amount"),
   (str "Merchant", str "merchant"),
   (str "Location", str "location"),
   (str "Timestamp", str "timestamp"),
   (str "Card Number", str "card_number")]

/-- A trivial host environment for concrete witnesses: `parseFloat` and
the date parser reject every string. -/
def envA : JSEnv := ⟨fun _ => none, fun _ => none⟩

/-- Zero random streams for concrete witnesses. -/
def jitZero : ℕ → ℚ := fun _ => 0

/-- Zero indicator random streams for concrete witnesses. -/
def indZero : ℕ → ℕ → ℚ := fun _ _ => 0

/-! ## Basic facts about the scorer's contributions -/

theorem amountTier_nonneg (a : ℚ) : 0 ≤ amountTier a := by
  unfold amountTier; split_ifs <;> norm_num

theorem amountTier_le_30 (a : ℚ) : amountTier a ≤ 30 := by
  unfold amountTier; split_ifs <;> norm_num

theorem locFlagOf_cases (t : Row) : locFlagOf t = 0 ∨ locFlagOf t = 25 := by
  unfold locFlagOf; split_ifs <;> simp

theorem timeFlagOf_cases (env : JSEnv) (t : Row) :
    timeFlagOf env t = 0 ∨ timeFlagOf env t = 15 := by
  cases hg : jsGet t (str "timestamp") with
  | none => left; simp [timeFlagOf, hg]
  | some s =>
    cases hh : env.dateLocalHour s with
    | none => left; simp [timeFlagOf, hg, hh]
    | some hour =>
      by_cases hcond : 1 ≤ hour ∧ hour ≤ 5
      · right; simp [timeFlagOf, hg, hh, hcond]
      · left; simp [timeFlagOf, hg, hh, hcond]

theorem strStartsWith_iff (s pre : Str) : strStartsWith s pre = true ↔ pre <+: s := by
  induction s generalizing pre with
  | nil =>
    cases pre with
    | nil => simp [strStartsWith]
    | cons d ds => simp [strStartsWith]
  | cons c cs ih =>
    cases pre with
    | nil => simp [strStartsWith]
    | cons d ds =>
      simp only [strStartsWith, Bool.and_eq_true, decide_eq_true_eq, ih,
        List.cons_prefix_cons]
      tauto

theorem jsIncludes_iff (s sub : Str) : jsIncludes s sub = true ↔ sub <:+: s := by
  induction s with
  | nil =>
    simp only [jsIncludes, strStartsWith_iff, List.infix_nil]
    cases sub with
    | nil => simp
    | cons d ds => simp [strStartsWith]
  | cons c cs ih =>
    simp only [jsIncludes, Bool.or_eq_true, strStartsWith_iff, ih,
      List.infix_cons_iff]

/-! ## C1: the scorer is total and bounded -/

/-- C1: for every Raw Row — with arbitrary, possibly missing or
unparsable `amount`, `location` and `timestamp` values — and every
jitter draw `j ∈ [0,40)`, `calculateRiskScore` (a total function of the
embedding, so it terminates without error) returns an integer in
`[0,100]`; an unparsable amount is treated as `0`, an unparsable
timestamp contributes no time flag, and a missing location contributes
no location flag. -/
theorem calculateRiskScore_total_bounded (env : JSEnv) (t : Row) (j : ℚ)
    (h0 : 0 ≤ j) (h40 : j < 40) :
    (0 ≤ calculateRiskScore env t j ∧ calculateRiskScore env t j ≤ 100)
    ∧ (∀ s, jsGet t (str "amount") = some s → env.parseFloat s = none →
        amountOf env t = 0)
    ∧ (jsGet t (str "amount") = none → amountOf env t = 0)
    ∧ (∀ s, jsGet t (str "timestamp") = some s → env.dateLocalHour s = none →
        timeFlagOf env t = 0)
    ∧ (jsGet t (str "timestamp") = none → timeFlagOf env t = 0)
    ∧ (jsGet t (str "location") = none → locFlagOf t = 0) := by
  refine ⟨⟨?_, ?_⟩, ?_, ?_, ?_, ?_, ?_⟩
  · have hsum : (0 : ℚ) ≤ amountTier (amountOf env t) + j + locFlagOf t + timeFlagOf env t := by
      have h1 := amountTier_nonneg (amountOf env t)
      have h2 := locFlagOf_cases t
      have h3 := timeFlagOf_cases env t
      rcases h2 with h2 | h2 <;> rcases h3 with h3 | h3 <;>
        rw [h2, h3] <;> linarith
    have hr : 0 ≤ jsRound (amountTier (amountOf env t) + j + locFlagOf t + timeFlagOf env t) := by
      rw [jsRound, Int.le_floor]
      push_cast
      linarith
    exact le_min hr (by norm_num)
  · exact min_le_right _ _
  · intro s hs hn
    simp [amountOf, hs, hn]
  · intro hs
    simp [amountOf, hs]
  · intro s hs hn
    simp [timeFlagOf, hs, hn]
  · intro hs
    simp [timeFlagOf, hs]
  · intro hs
    simp [locFlagOf, jsOptIncludes, hs, highRiskLocations]

/-- Witness for C1 at the concrete input `envA`, the empty row and
jitter `0`. -/
theorem calculateRiskScore_total_bounded_witness :
    ((0 : ℚ) ≤ 0 ∧ (0 : ℚ) < 40)
    ∧ (0 ≤ calculateRiskScore envA [] 0 ∧ calculateRiskScore envA [] 0 ≤ 100) :=
  ⟨⟨le_refl 0, by norm_num⟩,
    (calculateRiskScore_total_bounded envA [] 0 (le_refl 0) (by norm_num)).1⟩

/-! ## C2: classification thresholds -/

/-- C2: for every integer score `s`, the status is `fraud` iff
`s ≥ 70`, `warning` iff `50 ≤ s < 70`, and `legitimate` otherwise; and
the risk level is `High`, `Medium`, `Low` in exactly the corresponding
cases. -/
theorem classify_thresholds (s : ℤ) :
    (determineFraudStatus s = str "fraud" ↔ 70 ≤ s)
    ∧ (determineFraudStatus s = str "warning" ↔ 50 ≤ s ∧ s < 70)
    ∧ (determineFraudStatus s = str "legitimate" ↔ ¬(70 ≤ s) ∧ ¬(50 ≤ s ∧ s < 70))
    ∧ (getRiskLevel s = str "High" ↔ determineFraudStatus s = str "fraud")
    ∧ (getRiskLevel s = str "Medium" ↔ determineFraudStatus s = str "warning")
    ∧ (getRiskLevel s = str "Low" ↔ determineFraudStatus s = str "legitimate") := by
  unfold determineFraudStatus getRiskLevel
  split_ifs with h1 h2 <;> refine ⟨?_, ?_, ?_, ?_, ?_, ?_⟩ <;>
    constructor <;> intro hx <;> first
      | omega
      | rfl
      | (exfalso; revert hx; decide)

/-! ## C3: the exact score formula -/

/-- C3: for every row and jitter `j ∈ [0,40)` the score equals
`min (round (tier + j + locFlag + timeFlag)) 100`, where the tier is
the claimed if-chain over the parsed amount, the location flag is 25
exactly when the `location` value contains a denylisted name as a
case-sensitive substring, and the time flag is 15 exactly when the
timestamp parses to a local hour in `[1,5]`; a parsable amount is used
verbatim. -/
theorem calculateRiskScore_formula (env : JSEnv) (t : Row) (j : ℚ)
    (h0 : 0 ≤ j) (h40 : j < 40) :
    (calculateRiskScore env t j
      = min (jsRound
          ((if amountOf env t > 5000 then 30
            else if amountOf env t > 2000 then 20
            else if amountOf env t > 1000 then 10
            else if amountOf env t < 10 then 15
            else 0)
            + j + locFlagOf t + timeFlagOf env t)) 100)
    ∧ ((locFlagOf t = 25) ↔
        ∃ loc ∈ highRiskLocations, ∃ s, jsGet t (str "location") = some s ∧ loc <:+: s)
    ∧ (locFlagOf t = 0 ∨ locFlagOf t = 25)
    ∧ ((timeFlagOf env t = 15) ↔
        ∃ s, jsGet t (str "timestamp") = some s ∧
          ∃ h, env.dateLocalHour s = some h ∧ 1 ≤ h ∧ h ≤ 5)
    ∧ (timeFlagOf env t = 0 ∨ timeFlagOf env t = 15)
    ∧ (∀ s, jsGet t (str "amount") = some s →
        ∀ q, env.parseFloat s = some q → amountOf env t = q) := by
  refine ⟨rfl, ?_, locFlagOf_cases t, ?_, timeFlagOf_cases env t, ?_⟩
  · unfold locFlagOf
    split_ifs with h
    · simp only [eq_self_iff_true, true_iff]
      rcases List.any_eq_true.mp h with ⟨loc, hmem, hinc⟩
      cases hg : jsGet t (str "location") with
      | none => rw [hg] at hinc; simp [jsOptIncludes] at hinc
      | some s =>
        rw [hg] at hinc
        exact ⟨loc, hmem, s, rfl, (jsIncludes_iff s loc).mp hinc⟩
    · constructor
      · intro h0'; exfalso; norm_num at h0'
      · rintro ⟨loc, hmem, s, hg, hinf⟩
        exfalso
        exact h (List.any_eq_true.mpr ⟨loc, hmem, by
          simp [jsOptIncludes, hg, (jsIncludes_iff s loc).mpr hinf]⟩)
  · cases hg : jsGet t (str "timestamp") with
    | none =>
      simp only [timeFlagOf, hg]
      constructor
      · intro h15; exfalso; norm_num at h15
      · rintro ⟨s, hs, _⟩; exact absurd hs (by simp)
    | some s =>
      cases hh : env.dateLocalHour s with
      | none =>
        simp only [timeFlagOf, hg, hh]
        constructor
        · intro h15; exfalso; norm_num at h15
        · rintro ⟨s', hs', h', hh', _⟩
          injection hs' with hss; subst hss
          rw [hh] at hh'; exact absurd hh' (by simp)
      | some hour =>
        simp only [timeFlagOf, hg, hh]
        by_cases hcond : 1 ≤ hour ∧ hour ≤ 5
        · rw [if_pos hcond]
          simp only [eq_self_iff_true, true_iff]
          exact ⟨s, rfl, hour, hh, hcond⟩
        · rw [if_neg hcond]
          constructor
          · intro h15; exfalso; norm_num at h15
          · rintro ⟨s', hs', h', hh', hcond'⟩
            injection hs' with hss; subst hss
            rw [hh] at hh'; injection hh' with hhh; subst hhh
            exact absurd hcond' hcond
  · intro s hs q hq
    simp [amountOf, hs, hq]

/-- Witness for C3 at the concrete input `envA`, the empty row and
jitter `0`. -/
theorem calculateRiskScore_formula_witness :
    ((0 : ℚ) ≤ 0 ∧ (0 : ℚ) < 40)
    ∧ calculateRiskScore envA [] 0
      = min (jsRound
          ((if amountOf envA [] > 5000 then 30
            else if amountOf envA [] > 2000 then 20
            else if amountOf envA [] > 1000 then 10
            else if amountOf envA [] < 10 then 15
            else 0)
            + 0 + locFlagOf [] + timeFlagOf envA [])) 100 :=
  ⟨⟨le_refl 0, by norm_num⟩,
    (calculateRiskScore_formula envA [] 0 (le_refl 0) (by norm_num)).1⟩

/-! ## C4: shape of the parser output -/

theorem mkRow_keys (hs vs : List Str) : (mkRow hs vs).map Prod.fst = hs := by
  unfold mkRow
  rw [List.map_map]
  have hcomp : Prod.fst ∘ (fun p : ℕ × Str => (p.2, vs.getD p.1 ([] : Str))) = Prod.snd := rfl
  rw [hcomp]
  exact List.enum_map_snd hs

theorem mkRow_getElem? (hs vs : List Str) (i : ℕ) :
    (mkRow hs vs)[i]? = (hs[i]?).map (fun h => (h, vs.getD i [])) := by
  unfold mkRow
  rw [List.getElem?_map, List.getElem?_enum]
  cases hs[i]? <;> rfl

/-- C4: `parseCSV` returns one Raw Row per data line that does not trim
to empty, each row's key list equal to the trimmed comma-split header
list; a short data line is padded with empty-string values (the `i`-th
entry of a built row is the `i`-th header paired with the `i`-th value
or `""`); empty input after trimming, or a single header-only line,
yields zero rows. -/
theorem parseCSV_shape (content : Str) :
    ((parseCSV content).length
      = (((jsLines content).drop 1).filter (fun l => !(trimChars l).isEmpty)).length)
    ∧ (∀ r ∈ parseCSV content, r.map Prod.fst = csvHeaders content)
    ∧ (∀ headers values : List Str, ∀ i : ℕ,
        (mkRow headers values)[i]? = (headers[i]?).map (fun h => (h, values.getD i [])))
    ∧ (trimChars content = [] → parseCSV content = [])
    ∧ ((jsLines content).length = 1 → parseCSV content = []) := by
  refine ⟨?_, ?_, ?_, ?_, ?_⟩
  · simp [parseCSV]
  · intro r hr
    simp only [parseCSV, List.mem_map] at hr
    obtain ⟨l, -, rfl⟩ := hr
    exact mkRow_keys _ _
  · exact mkRow_getElem?
  · intro h
    simp [parseCSV, jsLines, h, splitOnChar, splitOnCharAux]
  · intro h
    unfold parseCSV
    have hd : (jsLines content).drop 1 = [] := by
      rw [List.drop_eq_nil_iff, h]
    rw [hd]
    rfl

/-- Witness for C4: a two-column sheet with one data row, and
whitespace-only input. -/
theorem parseCSV_shape_witness :
    (mkRow [str "a", str "b"] [str "x"] ∈ parseCSV (str "a,b\nx")
      ∧ (mkRow [str "a", str "b"] [str "x"]).map Prod.fst = csvHeaders (str "a,b\nx"))
    ∧ (trimChars (str " ") = [] ∧ parseCSV (str " ") = []) :=
  ⟨⟨by decide, (parseCSV_shape (str "a,b\nx")).2.1 _ (by decide)⟩,
   ⟨by decide, (parseCSV_shape (str " ")).2.2.2.1 (by decide)⟩⟩

/-! ## C5: the pipeline invariant -/

/-- C5: every Enriched Result produced by `performAnalysis` has its
`status` and `riskLevel` computed from its `riskScore` by the fixed
threshold functions, and its `indicators` list is non-empty only when
the status is `fraud`. -/
theorem performAnalysis_invariant (env : JSEnv) (jit : ℕ → ℚ) (ind : ℕ → ℕ → ℚ)
    (rows : List Row) :
    ∀ r ∈ performAnalysis env jit ind rows,
      r.status = determineFraudStatus r.riskScore
      ∧ r.riskLevel = getRiskLevel r.riskScore
      ∧ (r.status ≠ str "fraud" → r.indicators = []) := by
  intro r hr
  simp only [performAnalysis, List.mem_map] at hr
  obtain ⟨p, -, rfl⟩ := hr
  refine ⟨rfl, rfl, ?_⟩
  intro hne
  by_cases h : determineFraudStatus (calculateRiskScore env p.2 (jit p.1)) = str "fraud"
  · exact absurd h hne
  · exact if_neg h

/-- Witness for C5 at the one-row input `[[]]` with zero random
streams: the produced result has score 15, status `legitimate`, level
`Low` and no indicators. -/
theorem performAnalysis_invariant_witness :
    (⟨[], 15, str "legitimate", [], str "Low"⟩ : EnrichedResult)
      ∈ performAnalysis envA jitZero indZero [[]]
    ∧ (str "legitimate" = determineFraudStatus (15 : ℤ)
      ∧ str "Low" = getRiskLevel (15 : ℤ)
      ∧ (str "legitimate" ≠ str "fraud" → ([] : List Str) = [])) := by
  have h5 : calculateRiskScore envA [] 0 = 15 := by
    have h1 : amountOf envA [] = 0 := rfl
    have h2 : locFlagOf [] = 0 := rfl
    have h3 : timeFlagOf envA [] = 0 := rfl
    unfold calculateRiskScore
    rw [h1, h2, h3]
    have h4 : amountTier 0 = 15 := by norm_num [amountTier]
    rw [h4]
    have hf : jsRound (15 + 0 + 0 + 0) = 15 := by
      norm_num [jsRound, Int.floor_eq_iff]
    rw [hf]
    decide
  have hperf : performAnalysis envA jitZero indZero [[]]
      = [⟨[], 15, str "legitimate", [], str "Low"⟩] := by
    have hstep : performAnalysis envA jitZero indZero [[]]
        = [⟨[], calculateRiskScore envA [] 0,
            determineFraudStatus (calculateRiskScore envA [] 0),
            if determineFraudStatus (calculateRiskScore envA [] 0) = str "fraud"
              then generateFraudIndicators (indZero 0) else [],
            getRiskLevel (calculateRiskScore envA [] 0)⟩] := rfl
    rw [hstep, h5]
    rfl
  have hmem : (⟨[], 15, str "legitimate", [], str "Low"⟩ : EnrichedResult)
      ∈ performAnalysis envA jitZero indZero [[]] := by
    rw [hperf]
    exact List.mem_singleton.mpr rfl
  exact ⟨hmem, performAnalysis_invariant envA jitZero indZero [[]] _ hmem⟩

/-! ## C7: the fraud-rate division is not guarded -/

/-- C7 divergence evidence: on an empty Result Set `displayResults`
computes `(fraudCount / totalTransactions) * 100 = (0 / 0) * 100`,
which is `NaN` (modelled by `none`) rather than the guarded `0` the
claim asserts; `toFixed(1)` then renders the string `NaN`, so the page
shows `NaN%` and not `0%`. -/
theorem displayResults_fraudRate_unguarded :
    (displayResults []).totalTransactions = 0
    ∧ (displayResults []).fraudRate = none := by
  constructor
  · rfl
  · rfl

/-! ## C8: results-view initialization -/

/-- C8 counterexample: with the persisted results entry holding a
malformed JSON string (the host's `JSON.parse` throws a `SyntaxError`
on it, modelled by the parse outcome `throws`), `initResultsPage`
aborts with an uncaught exception: the storage entries are NOT cleared
and the user is NOT redirected to the upload step, contradicting the
claim that malformed persisted state is treated as "no results". -/
theorem initResultsPage_malformed_counterexample :
    initResultsPage (fun _ => JsonOutcome.throws) ⟨some (str "\x7bbad"), none⟩
      = (⟨some (str "\x7bbad"), none⟩, PageAction.scriptError)
    ∧ (initResultsPage (fun _ => JsonOutcome.throws)
        ⟨some (str "\x7bbad"), none⟩).1.results = some (str "\x7bbad") := by
  constructor
  · rfl
  · rfl

/-- C8 amended: an absent or empty persisted results entry, and one
that parses to a falsy value or to an empty array, clears both storage
entries and redirects to the upload step with nothing rendered; a
non-empty parsed array is displayed; but a persisted string on which
`JSON.parse` throws aborts initialization with storage untouched and no
redirect. -/
theorem initResultsPage_cases (jsonParse : Str → JsonOutcome) (st : Storage) (s : Str) :
    (st.results = none →
      initResultsPage jsonParse st = (⟨none, none⟩, PageAction.redirectToUpload))
    ∧ (st.results = some [] →
      initResultsPage jsonParse st = (⟨none, none⟩, PageAction.redirectToUpload))
    ∧ (st.results = some s → s.isEmpty = false → jsonParse s = JsonOutcome.falsy →
      initResultsPage jsonParse st = (⟨none, none⟩, PageAction.redirectToUpload))
    ∧ (st.results = some s → s.isEmpty = false → jsonParse s = JsonOutcome.arr [] →
      initResultsPage jsonParse st = (⟨none, none⟩, PageAction.redirectToUpload))
    ∧ (st.results = some s → s.isEmpty = false → ∀ r rs,
      jsonParse s = JsonOutcome.arr (r :: rs) →
      initResultsPage jsonParse st = (st, PageAction.display (r :: rs)))
    ∧ (st.results = some s → s.isEmpty = false → jsonParse s = JsonOutcome.throws →
      initResultsPage jsonParse st = (st, PageAction.scriptError)) := by
  obtain ⟨res, ts⟩ := st
  refine ⟨?_, ?_, ?_, ?_, ?_, ?_⟩
  · intro h
    simp only at h
    subst h
    rfl
  · intro h
    simp only at h
    subst h
    rfl
  · intro h hne hp
    simp only at h
    subst h
    simp [initResultsPage, hne, hp]
  · intro h hne hp
    simp only at h
    subst h
    simp [initResultsPage, hne, hp]
  · intro h hne r rs hp
    simp only at h
    subst h
    simp [initResultsPage, hne, hp]
  · intro h hne hp
    simp only at h
    subst h
    simp [initResultsPage, hne, hp]

/-- Witness for C8 (amended) at a persisted `"[]"` parsing to the empty
array: storage is cleared and the page redirects. -/
theorem initResultsPage_cases_witness :
    (⟨some (str "[]"), none⟩ : Storage).results = some (str "[]")
    ∧ (str "[]").isEmpty = false
    ∧ initResultsPage (fun _ => JsonOutcome.arr []) ⟨some (str "[]"), none⟩
      = (⟨none, none⟩, PageAction.redirectToUpload) :=
  ⟨rfl, by decide,
    (initResultsPage_cases (fun _ => JsonOutcome.arr [])
      ⟨some (str "[]"), none⟩ (str "[]")).2.2.2.1 rfl (by decide) rfl⟩

/-! ## C9: search and status filter do not compose -/

/-- C9 counterexample: start from a visible `legitimate` row whose text
contains `"a"`.  Apply the status filter `fraud` (hiding the row), then
search for `"a"`: the row becomes visible again even though it fails
the active status filter, so visibility is NOT the conjunction of the
two predicates — the last operation simply overwrites visibility. -/
theorem filter_search_not_composed :
    (searchTransactions (str "a")
        (filterResults (str "fraud") [⟨str "legitimate", str "abc", true⟩])).map
      (fun r => r.visible) = [true]
    ∧ statusFilterPred (str "fraud") (str "legitimate") = false := by
  constructor <;> decide

/-- C9 amended: the two operations each overwrite row visibility from
their own predicate alone, so the one applied last wins; applying the
search after the status filter yields visibility equal to the search
predicate (ignoring the filter), and conversely. -/
theorem filter_search_last_wins (f t : Str) (rows : List TableRow) :
    searchTransactions t (filterResults f rows)
      = rows.map (fun r => { r with visible := searchPred t r })
    ∧ filterResults f (searchTransactions t rows)
      = rows.map (fun r => { r with visible := statusFilterPred f r.status }) := by
  constructor
  · unfold searchTransactions filterResults
    rw [List.map_map]
    rfl
  · unfold filterResults searchTransactions
    rw [List.map_map]
    rfl

/-! ## C10: falsy fields are exported as empty strings -/

/-- C10: in `exportToCSV` every falsy cell value is emitted as the
empty string: a result with `riskScore = 0` gets an empty Risk Score
column (not `"0"`), a non-zero score is stringified, and a missing or
empty-string transaction field is exported as empty. -/
theorem exportRow_falsy (r : EnrichedResult) :
    (r.riskScore = 0 → (exportRow r).getD 6 (str "x") = [])
    ∧ (r.riskScore ≠ 0 → (exportRow r).getD 6 (str "x") = intToStr r.riskScore)
    ∧ (∀ idx key, (idx, key) ∈
        ([(0, str "transaction_id"), (1, str "amount"), (2, str "merchant"),
          (3, str "location"), (4, str "timestamp"), (5, str "card_number")] :
          List (ℕ × Str)) →
        (jsGet r.row key = none ∨ jsGet r.row key = some []) →
        (exportRow r).getD idx (str "x") = []) := by
  refine ⟨?_, ?_, ?_⟩
  · intro h
    simp [exportRow, scoreCell, h]
  · intro h
    simp [exportRow, scoreCell, h]
  · intro idx key hmem hval
    fin_cases hmem <;> rcases hval with h | h <;> simp [exportRow, jsCell, h]

/-- Witness for C10 at a result with score 0 and an empty row. -/
theorem exportRow_falsy_witness :
    ((⟨[], 0, str "legitimate", [], str "Low"⟩ : EnrichedResult).riskScore = 0)
    ∧ (exportRow ⟨[], 0, str "legitimate", [], str "Low"⟩).getD 6 (str "x") = [] :=
  ⟨rfl, (exportRow_falsy ⟨[], 0, str "legitimate", [], str "Low"⟩).1 rfl⟩

/-! ## String toolkit lemmas for the export round trip (C6) -/

theorem splitOnCharAux_no_sep (sep : Char) (s : Str) (h : sep ∉ s) :
    splitOnCharAux sep s = (s, []) := by
  induction s with
  | nil => rfl
  | cons c cs ih =>
    have hc : c ≠ sep := fun hcs => h (hcs ▸ List.mem_cons_self c cs)
    have hcs : sep ∉ cs := fun hm => h (List.mem_cons_of_mem c hm)
    simp [splitOnCharAux, hc, ih hcs]

theorem splitOnChar_no_sep (sep : Char) (s : Str) (h : sep ∉ s) :
    splitOnChar sep s = [s] := by
  simp [splitOnChar, splitOnCharAux_no_sep sep s h]

theorem splitOnCharAux_append_sep (sep : Char) (x t : Str) (h : sep ∉ x) :
    splitOnCharAux sep (x ++ sep :: t)
      = (x, (splitOnCharAux sep t).1 :: (splitOnCharAux sep t).2) := by
  induction x with
  | nil => simp [splitOnCharAux]
  | cons c cs ih =>
    have hc : c ≠ sep := fun hcs => h (hcs ▸ List.mem_cons_self c cs)
    have hcs : sep ∉ cs := fun hm => h (List.mem_cons_of_mem c hm)
    simp [splitOnCharAux, hc, ih hcs]

theorem splitOnChar_joinChar (sep : Char) (chunks : List Str)
    (hne : chunks ≠ []) (h : ∀ x ∈ chunks, sep ∉ x) :
    splitOnChar sep (joinChar sep chunks) = chunks := by
  induction chunks with
  | nil => exact absurd rfl hne
  | cons x xs ih =>
    cases xs with
    | nil =>
      exact splitOnChar_no_sep sep x (h x (List.mem_cons_self x []))
    | cons y ys =>
      have hx : sep ∉ x := h x (List.mem_cons_self x (y :: ys))
      have hrest : ∀ z ∈ y :: ys, sep ∉ z := fun z hz => h z (List.mem_cons_of_mem x hz)
      have hjoin : joinChar sep (x :: y :: ys) = x ++ sep :: joinChar sep (y :: ys) := rfl
      rw [hjoin]
      have hih := ih (by simp) hrest
      simp only [splitOnChar] at hih ⊢
      rw [splitOnCharAux_append_sep sep x (joinChar sep (y :: ys)) hx]
      rw [List.cons.injEq] at hih
      simp [hih.1, hih.2]

theorem splitOnCharAux_no_sep_pieces (sep : Char) (s : Str) :
    sep ∉ (splitOnCharAux sep s).1 ∧ ∀ p ∈ (splitOnCharAux sep s).2, sep ∉ p := by
  induction s with
  | nil => simp [splitOnCharAux]
  | cons c cs ih =>
    by_cases hc : c = sep
    · simp only [splitOnCharAux, if_pos hc]
      exact ⟨by simp, fun p hp => by
        rcases List.mem_cons.mp hp with h | h
        · exact h ▸ ih.1
        · exact ih.2 p h⟩
    · simp only [splitOnCharAux, if_neg hc]
      refine ⟨?_, ih.2⟩
      intro hm
      rcases List.mem_cons.mp hm with h | h
      · exact hc h.symm
      · exact ih.1 h

theorem mem_splitOnChar_no_sep (sep : Char) (s : Str) :
    ∀ p ∈ splitOnChar sep s, sep ∉ p := by
  intro p hp
  rcases List.mem_cons.mp hp with h | h
  · exact h ▸ (splitOnCharAux_no_sep_pieces sep s).1
  · exact (splitOnCharAux_no_sep_pieces sep s).2 p h

theorem splitOnCharAux_subset (sep : Char) (s : Str) :
    (∀ c ∈ (splitOnCharAux sep s).1, c ∈ s)
    ∧ ∀ p ∈ (splitOnCharAux sep s).2, ∀ c ∈ p, c ∈ s := by
  induction s with
  | nil => simp [splitOnCharAux]
  | cons a as ih =>
    by_cases hc : a = sep
    · simp only [splitOnCharAux, if_pos hc]
      refine ⟨by simp, ?_⟩
      intro p hp c hcp
      rcases List.mem_cons.mp hp with h | h
      · exact List.mem_cons_of_mem a (ih.1 c (h ▸ hcp))
      · exact List.mem_cons_of_mem a (ih.2 p h c hcp)
    · simp only [splitOnCharAux, if_neg hc]
      refine ⟨?_, ?_⟩
      · intro c hcp
        rcases List.mem_cons.mp hcp with h | h
        · exact h ▸ List.mem_cons_self a as
        · exact List.mem_cons_of_mem a (ih.1 c h)
      · intro p hp c hcp
        exact List.mem_cons_of_mem a (ih.2 p hp c hcp)

theorem mem_splitOnChar_subset (sep : Char) (s : Str) :
    ∀ p ∈ splitOnChar sep s, ∀ c ∈ p, c ∈ s := by
  intro p hp
  rcases List.mem_cons.mp hp with h | h
  · exact fun c hc => (splitOnCharAux_subset sep s).1 c (h ▸ hc)
  · exact (splitOnCharAux_subset sep s).2 p h

theorem not_mem_joinChar (sep : Char) (chunks : List Str) (c : Char)
    (hc : c ≠ sep) (h : ∀ x ∈ chunks, c ∉ x) : c ∉ joinChar sep chunks := by
  induction chunks with
  | nil => simp [joinChar]
  | cons x xs ih =>
    cases xs with
    | nil => exact h x (List.mem_cons_self x [])
    | cons y ys =>
      intro hm
      have hjoin : joinChar sep (x :: y :: ys) = x ++ sep :: joinChar sep (y :: ys) := rfl
      rw [hjoin] at hm
      rcases List.mem_append.mp hm with hm | hm
      · exact h x (List.mem_cons_self x (y :: ys)) hm
      · rcases List.mem_cons.mp hm with hm | hm
        · exact hc hm
        · exact ih (fun z hz => h z (List.mem_cons_of_mem x hz)) hm

theorem mem_joinChar (sep : Char) (chunks : List Str) (x : Str)
    (hx : x ∈ chunks) : ∀ c ∈ x, c ∈ joinChar sep chunks := by
  induction chunks with
  | nil => exact absurd hx (List.not_mem_nil x)
  | cons z zs ih =>
    cases zs with
    | nil =>
      rcases List.mem_cons.mp hx with h | h
      · exact fun c hc => h ▸ hc
      · exact absurd h (List.not_mem_nil x)
    | cons y ys =>
      have hjoin : joinChar sep (z :: y :: ys) = z ++ sep :: joinChar sep (y :: ys) := rfl
      rw [hjoin]
      rcases List.mem_cons.mp hx with h | h
      · intro c hc
        exact List.mem_append.mpr (Or.inl (h ▸ hc))
      · intro c hc
        exact List.mem_append.mpr (Or.inr (List.mem_cons_of_mem _ (ih h c hc)))

theorem joinChar_getLast? (sep : Char) (front : List Str) (x : Str) (hx : x ≠ []) :
    (joinChar sep (front ++ [x])).getLast? = x.getLast? := by
  induction front with
  | nil => rfl
  | cons y ys ih =>
    have hne : ys ++ [x] ≠ [] := by simp
    obtain ⟨z, zs, hz⟩ : ∃ z zs, ys ++ [x] = z :: zs := by
      cases hys : ys ++ [x] with
      | nil => exact absurd hys hne
      | cons z zs => exact ⟨z, zs, rfl⟩
    have hjoin : joinChar sep ((y :: ys) ++ [x]) = y ++ sep :: joinChar sep (ys ++ [x]) := by
      rw [List.cons_append, hz]
      rfl
    rw [hjoin]
    have hJ : (joinChar sep (ys ++ [x])).getLast? = x.getLast? := ih
    have hJx : x.getLast? = some (x.getLast hx) := List.getLast?_eq_getLast x hx
    have hJne : joinChar sep (ys ++ [x]) ≠ [] := by
      intro hnil
      rw [hnil] at hJ
      rw [hJx] at hJ
      exact Option.noConfusion hJ
    rw [List.getLast?_append]
    have hcons : (sep :: joinChar sep (ys ++ [x])).getLast? = x.getLast? := by
      cases hJl : joinChar sep (ys ++ [x]) with
      | nil => exact absurd hJl hJne
      | cons a as =>
        rw [List.getLast?_cons_cons]
        rw [← hJl, hJ]
    rw [hcons, hJx]
    rfl

theorem joinChar_head?_cons (sep : Char) (c : Char) (t : Str) (rest : List Str) :
    (joinChar sep ((c :: t) :: rest)).head? = some c := by
  cases rest with
  | nil => rfl
  | cons y ys => rfl

theorem joinChar_head?_ne_nil (sep : Char) (x : Str) (rest : List Str) (hx : x ≠ []) :
    (joinChar sep (x :: rest)).head? = x.head? := by
  cases rest with
  | nil => rfl
  | cons y ys =>
    cases x with
    | nil => exact absurd rfl hx
    | cons a as => rfl

theorem dropWhile_eq_self_of_head? (p : Char → Bool) (l : Str)
    (h : ∀ c, l.head? = some c → p c = false) : l.dropWhile p = l := by
  cases l with
  | nil => rfl
  | cons a as =>
    have ha := h a rfl
    rw [List.dropWhile_cons, if_neg (by simp [ha])]

theorem rdropWhile_eq_self_of_getLast? (p : Char → Bool) (l : Str)
    (h : ∀ c, l.getLast? = some c → p c = false) : l.rdropWhile p = l := by
  rw [List.rdropWhile_eq_self_iff]
  intro hl
  have := h (l.getLast hl) (List.getLast?_eq_getLast l hl)
  simp [this]

theorem trimChars_eq_self_of_ends (s : Str)
    (hh : ∀ c, s.head? = some c → jsIsSpace c = false)
    (hl : ∀ c, s.getLast? = some c → jsIsSpace c = false) : trimChars s = s := by
  unfold trimChars
  rw [dropWhile_eq_self_of_head? jsIsSpace s hh,
    rdropWhile_eq_self_of_getLast? jsIsSpace s hl]

theorem trimChars_eq_self_of_all (s : Str)
    (h : ∀ c ∈ s, jsIsSpace c = false) : trimChars s = s := by
  refine trimChars_eq_self_of_ends s ?_ ?_
  · intro c hc
    exact h c (List.mem_of_mem_head? (by rw [hc]; exact rfl))
  · intro c hc
    have hcm : c ∈ s := by
      have hne : s ≠ [] := by
        intro hnil
        rw [hnil] at hc
        exact Option.noConfusion hc
      have := List.getLast?_eq_getLast s hne
      rw [this] at hc
      injection hc with hcc
      exact hcc ▸ List.getLast_mem hne
    exact h c hcm

theorem head?_dropWhile_false (p : Char → Bool) (l : Str) :
    ∀ c, (l.dropWhile p).head? = some c → p c = false := by
  induction l with
  | nil => intro c h; exact Option.noConfusion h
  | cons a as ih =>
    intro c h
    by_cases hpa : p a
    · rw [List.dropWhile_cons, if_pos hpa] at h
      exact ih c h
    · rw [List.dropWhile_cons, if_neg hpa] at h
      injection h with hac
      rw [← hac]
      exact Bool.not_eq_true (p a) ▸ (by simpa using hpa)

theorem trimChars_idem (s : Str) : trimChars (trimChars s) = trimChars s := by
  have h1 : (trimChars s).dropWhile jsIsSpace = trimChars s := by
    apply dropWhile_eq_self_of_head?
    intro c hc
    obtain ⟨r, hr⟩ :=
      List.rdropWhile_prefix jsIsSpace (s.dropWhile jsIsSpace)
    have hu : (s.dropWhile jsIsSpace).head? = some c := by
      unfold trimChars at hc
      rw [← hr]
      cases ht : List.rdropWhile jsIsSpace (s.dropWhile jsIsSpace) with
      | nil =>
        rw [ht] at hc
        exact Option.noConfusion hc
      | cons a as =>
        rw [ht] at hc
        simp only [List.cons_append, List.head?_cons] at hc ⊢
        exact hc
    exact head?_dropWhile_false jsIsSpace s c hu
  show ((trimChars s).dropWhile jsIsSpace).rdropWhile jsIsSpace = trimChars s
  rw [h1]
  unfold trimChars
  exact List.rdropWhile_idempotent jsIsSpace (s.dropWhile jsIsSpace)

theorem mem_dropWhile_of_false (p : Char → Bool) (l : Str) (c : Char)
    (hc : c ∈ l) (hp : p c = false) : c ∈ l.dropWhile p := by
  induction l with
  | nil => cases hc
  | cons a as ih =>
    by_cases hpa : p a
    · rw [List.dropWhile_cons, if_pos hpa]
      rcases List.mem_cons.mp hc with h | h
      · exfalso
        rw [h] at hp
        rw [hp] at hpa
        exact Bool.noConfusion hpa
      · exact ih h
    · rw [List.dropWhile_cons, if_neg hpa]
      exact hc

theorem mem_trimChars_of_false (s : Str) (c : Char)
    (hc : c ∈ s) (hp : jsIsSpace c = false) : c ∈ trimChars s := by
  unfold trimChars List.rdropWhile
  rw [List.mem_reverse]
  exact mem_dropWhile_of_false jsIsSpace _ c
    (List.mem_reverse.mpr (mem_dropWhile_of_false jsIsSpace s c hc hp)) hp

theorem trimChars_ne_nil (s : Str) (c : Char)
    (hc : c ∈ s) (hp : jsIsSpace c = false) : trimChars s ≠ [] :=
  List.ne_nil_of_mem (mem_trimChars_of_false s c hc hp)

theorem trimChars_subset (s : Str) : ∀ c ∈ trimChars s, c ∈ s := by
  intro c hc
  unfold trimChars List.rdropWhile at hc
  rw [List.mem_reverse] at hc
  have h2 : c ∈ (s.dropWhile jsIsSpace).reverse :=
    (List.dropWhile_suffix jsIsSpace).sublist.subset hc
  rw [List.mem_reverse] at h2
  exact (List.dropWhile_suffix jsIsSpace).sublist.subset h2

theorem natToDigitsAux_digits (fuel : ℕ) :
    ∀ n : ℕ, ∀ c ∈ natToDigitsAux fuel n, ∃ d, d < 10 ∧ c = Nat.digitChar d := by
  induction fuel with
  | zero => intro n c hc; exact absurd hc (List.not_mem_nil c)
  | succ f ih =>
    intro n c hc
    by_cases h10 : n < 10
    · simp only [natToDigitsAux, if_pos h10, List.mem_singleton] at hc
      exact ⟨n, h10, hc⟩
    · simp only [natToDigitsAux, if_neg h10] at hc
      rcases List.mem_append.mp hc with h | h
      · exact ih (n / 10) c h
      · rw [List.mem_singleton] at h
        exact ⟨n % 10, Nat.mod_lt n (by norm_num), h⟩

theorem digitChar_clean : ∀ d ∈ List.range 10,
    jsIsSpace (Nat.digitChar d) = false
    ∧ Nat.digitChar d ≠ ',' ∧ Nat.digitChar d ≠ '\n' := by decide

theorem intToStr_clean (n : ℤ) :
    ∀ c ∈ intToStr n, jsIsSpace c = false ∧ c ≠ ',' ∧ c ≠ '\n' := by
  intro c hc
  cases n with
  | ofNat m =>
    obtain ⟨d, hd, rfl⟩ := natToDigitsAux_digits (m + 1) m c hc
    exact digitChar_clean d (List.mem_range.mpr hd)
  | negSucc m =>
    rcases List.mem_cons.mp hc with h | h
    · subst h
      refine ⟨by decide, by decide, by decide⟩
    · obtain ⟨d, hd, rfl⟩ := natToDigitsAux_digits (m + 2) (m + 1) c h
      exact digitChar_clean d (List.mem_range.mpr hd)

theorem determineFraudStatus_cases (s : ℤ) :
    determineFraudStatus s = str "fraud" ∨ determineFraudStatus s = str "warning"
    ∨ determineFraudStatus s = str "legitimate" := by
  unfold determineFraudStatus
  split_ifs <;> simp

theorem status_str_clean (st : Str)
    (h : st = str "fraud" ∨ st = str "warning" ∨ st = str "legitimate") :
    (∀ c ∈ st, jsIsSpace c = false ∧ c ≠ ',' ∧ c ≠ '\n')
    ∧ st ≠ [] ∧ (∃ c ∈ st, jsIsSpace c = false)
    ∧ (∀ c, st.getLast? = some c → jsIsSpace c = false) := by
  rcases h with h | h | h <;> subst h
  · refine ⟨by decide, by decide, by decide, ?_⟩
    intro c hc
    have hd : List.getLast? (str "fraud") = some 'd' := by decide
    rw [hd] at hc
    injection hc with hcc
    rw [← hcc]
    decide
  · refine ⟨by decide, by decide, by decide, ?_⟩
    intro c hc
    have hd : List.getLast? (str "warning") = some 'g' := by decide
    rw [hd] at hc
    injection hc with hcc
    rw [← hcc]
    decide
  · refine ⟨by decide, by decide, by decide, ?_⟩
    intro c hc
    have hd : List.getLast? (str "legitimate") = some 'e' := by decide
    rw [hd] at hc
    injection hc with hcc
    rw [← hcc]
    decide

theorem jsCell_eq (o : Option Str) : jsCell o = o.getD [] := by
  cases o with
  | none => rfl
  | some v =>
    cases v with
    | nil => rfl
    | cons a as => rfl

theorem jsCell_some_ne_nil (st : Str) (h : st ≠ []) : jsCell (some st) = st := by
  cases st with
  | nil => exact absurd rfl h
  | cons a as => rfl

theorem jsGet_some_mem (t : Row) (k v : Str) (h : jsGet t k = some v) :
    ∃ kv ∈ t, kv.2 = v := by
  unfold jsGet at h
  cases hf : t.reverse.find? (fun p => p.1 == k) with
  | none => rw [hf] at h; exact Option.noConfusion h
  | some kv =>
    rw [hf] at h
    injection h with hv
    have hm := List.mem_of_find?_eq_some hf
    rw [List.mem_reverse] at hm
    exact ⟨kv, hm, hv⟩

theorem mkRow_value_mem (hs vs : List Str) (kv : Str × Str) (h : kv ∈ mkRow hs vs) :
    kv.2 = [] ∨ kv.2 ∈ vs := by
  unfold mkRow at h
  rcases List.mem_map.mp h with ⟨p, -, rfl⟩
  by_cases hlt : p.1 < vs.length
  · right
    rw [List.getD_eq_getElem vs [] hlt]
    exact List.getElem_mem hlt
  · left
    exact List.getD_eq_default vs [] (le_of_not_lt hlt)

theorem mem_enum_snd (l : List Row) (p : ℕ × Row) (h : p ∈ l.enum) : p.2 ∈ l := by
  rw [List.mem_iff_getElem?] at h
  obtain ⟨i, hi⟩ := h
  rw [List.getElem?_enum] at hi
  cases hl : l[i]? with
  | none => rw [hl] at hi; exact Option.noConfusion hi
  | some a =>
    rw [hl] at hi
    injection hi with hpa
    subst hpa
    exact List.getElem?_mem hl

theorem performAnalysis_length (env : JSEnv) (jit : ℕ → ℚ) (ind : ℕ → ℕ → ℚ)
    (rows : List Row) :
    (performAnalysis env jit ind rows).length = rows.length := by
  unfold performAnalysis
  rw [List.length_map, List.enum_length]

theorem performAnalysis_getElem? (env : JSEnv) (jit : ℕ → ℚ) (ind : ℕ → ℕ → ℚ)
    (rows : List Row) (i : ℕ) :
    (performAnalysis env jit ind rows)[i]?
      = (rows[i]?).map (fun t =>
          { row := t
            riskScore := calculateRiskScore env t (jit i)
            status := determineFraudStatus (calculateRiskScore env t (jit i))
            indicators :=
              if determineFraudStatus (calculateRiskScore env t (jit i)) = str "fraud"
              then generateFraudIndicators (ind i) else []
            riskLevel := getRiskLevel (calculateRiskScore env t (jit i)) }) := by
  unfold performAnalysis
  rw [List.getElem?_map, List.getElem?_enum]
  cases rows[i]? <;> rfl

theorem performAnalysis_status_cases (env : JSEnv) (jit : ℕ → ℚ) (ind : ℕ → ℕ → ℚ)
    (rows : List Row) :
    ∀ r ∈ performAnalysis env jit ind rows,
      r.status = str "fraud" ∨ r.status = str "warning"
      ∨ r.status = str "legitimate" := by
  intro r hr
  simp only [performAnalysis, List.mem_map] at hr
  obtain ⟨p, -, rfl⟩ := hr
  exact determineFraudStatus_cases _

theorem performAnalysis_row_mem (env : JSEnv) (jit : ℕ → ℚ) (ind : ℕ → ℕ → ℚ)
    (rows : List Row) :
    ∀ r ∈ performAnalysis env jit ind rows, r.row ∈ rows := by
  intro r hr
  simp only [performAnalysis, List.mem_map] at hr
  obtain ⟨p, hp, rfl⟩ := hr
  exact mem_enum_snd rows p hp

theorem parseCSV_values_clean (content : Str) :
    ∀ r ∈ parseCSV content, ∀ kv ∈ r,
      trimChars kv.2 = kv.2 ∧ ',' ∉ kv.2 ∧ '\n' ∉ kv.2 := by
  intro r hr kv hkv
  simp only [parseCSV, List.mem_map] at hr
  obtain ⟨l, hl, rfl⟩ := hr
  have hl2 : l ∈ (jsLines content).drop 1 := List.mem_of_mem_filter hl
  have hlm : l ∈ jsLines content := List.drop_subset 1 (jsLines content) hl2
  have hnl : '\n' ∉ l := by
    unfold jsLines at hlm
    exact mem_splitOnChar_no_sep '\n' (trimChars content) l hlm
  rcases mkRow_value_mem _ _ kv hkv with h | h
  · rw [h]
    exact ⟨rfl, by simp, by simp⟩
  · rcases List.mem_map.mp h with ⟨piece, hpiece, hrfl⟩
    rw [← hrfl]
    have hcomma : ',' ∉ piece := mem_splitOnChar_no_sep ',' l piece hpiece
    have hnl2 : '\n' ∉ piece :=
      fun hm => hnl (mem_splitOnChar_subset ',' l piece hpiece '\n' hm)
    refine ⟨trimChars_idem piece, ?_, ?_⟩
    · intro hm
      exact hcomma (trimChars_subset piece ',' hm)
    · intro hm
      exact hnl2 (trimChars_subset piece '\n' hm)

theorem exportRow_clean (env : JSEnv) (jit : ℕ → ℚ) (ind : ℕ → ℕ → ℚ) (content : Str) :
    ∀ r ∈ performAnalysis env jit ind (parseCSV content),
      ∀ x ∈ exportRow r, trimChars x = x ∧ ',' ∉ x ∧ '\n' ∉ x := by
  intro r hr x hx
  have hrow := performAnalysis_row_mem env jit ind (parseCSV content) r hr
  have hst := performAnalysis_status_cases env jit ind (parseCSV content) r hr
  have hcellOf : ∀ k : Str,
      trimChars (jsCell (jsGet r.row k)) = jsCell (jsGet r.row k)
      ∧ ',' ∉ jsCell (jsGet r.row k) ∧ '\n' ∉ jsCell (jsGet r.row k) := by
    intro k
    rw [jsCell_eq]
    cases hk : jsGet r.row k with
    | none => exact ⟨rfl, by simp, by simp⟩
    | some v =>
      obtain ⟨kv, hkvm, hkv2⟩ := jsGet_some_mem r.row k v hk
      have hclean := parseCSV_values_clean content r.row hrow kv hkvm
      rw [hkv2] at hclean
      exact hclean
  simp only [exportRow, List.mem_cons, List.not_mem_nil, or_false] at hx
  rcases hx with rfl | rfl | rfl | rfl | rfl | rfl | rfl | rfl
  · exact hcellOf _
  · exact hcellOf _
  · exact hcellOf _
  · exact hcellOf _
  · exact hcellOf _
  · exact hcellOf _
  · unfold scoreCell
    split_ifs with h0
    · exact ⟨rfl, by simp, by simp⟩
    · have hcl := intToStr_clean r.riskScore
      refine ⟨trimChars_eq_self_of_all _ (fun c hc => (hcl c hc).1), ?_, ?_⟩
      · intro hm
        exact (hcl ',' hm).2.1 rfl
      · intro hm
        exact (hcl _ hm).2.2 rfl
  · obtain ⟨hall, hne, -, -⟩ := status_str_clean r.status hst
    rw [jsCell_some_ne_nil r.status hne]
    refine ⟨trimChars_eq_self_of_all _ (fun c hc => (hall c hc).1), ?_, ?_⟩
    · intro hm
      exact (hall ',' hm).2.1 rfl
    · intro hm
      exact (hall _ hm).2.2 rfl

theorem jsGet_mkRow_export (vs : List Str) :
    jsGet (mkRow exportHeaders vs) (str "Transaction ID") = some (vs.getD 0 [])
    ∧ jsGet (mkRow exportHeaders vs) (str "Amount") = some (vs.getD 1 [])
    ∧ jsGet (mkRow exportHeaders vs) (str "Merchant") = some (vs.getD 2 [])
    ∧ jsGet (mkRow exportHeaders vs) (str "Location") = some (vs.getD 3 [])
    ∧ jsGet (mkRow exportHeaders vs) (str "Timestamp") = some (vs.getD 4 [])
    ∧ jsGet (mkRow exportHeaders vs) (str "Card Number") = some (vs.getD 5 []) :=
  ⟨rfl, rfl, rfl, rfl, rfl, rfl⟩

theorem export_field_roundtrip (R : EnrichedResult) :
    jsGet (mkRow exportHeaders (exportRow R)) (str "Transaction ID")
      = some (jsGetD R.row (str "transaction_id") [])
    ∧ jsGet (mkRow exportHeaders (exportRow R)) (str "Amount")
      = some (jsGetD R.row (str "amount") [])
    ∧ jsGet (mkRow exportHeaders (exportRow R)) (str "Merchant")
      = some (jsGetD R.row (str "merchant") [])
    ∧ jsGet (mkRow exportHeaders (exportRow R)) (str "Location")
      = some (jsGetD R.row (str "location") [])
    ∧ jsGet (mkRow exportHeaders (exportRow R)) (str "Timestamp")
      = some (jsGetD R.row (str "timestamp") [])
    ∧ jsGet (mkRow exportHeaders (exportRow R)) (str "Card Number")
      = some (jsGetD R.row (str "card_number") []) := by
  refine ⟨?_, ?_, ?_, ?_, ?_, ?_⟩
  · rw [(jsGet_mkRow_export (exportRow R)).1]
    rw [show (exportRow R).getD 0 [] = jsCell (jsGet R.row (str "transaction_id")) from rfl]
    rw [jsCell_eq]
    rfl
  · rw [(jsGet_mkRow_export (exportRow R)).2.1]
    rw [show (exportRow R).getD 1 [] = jsCell (jsGet R.row (str "amount")) from rfl]
    rw [jsCell_eq]
    rfl
  · rw [(jsGet_mkRow_export (exportRow R)).2.2.1]
    rw [show (exportRow R).getD 2 [] = jsCell (jsGet R.row (str "merchant")) from rfl]
    rw [jsCell_eq]
    rfl
  · rw [(jsGet_mkRow_export (exportRow R)).2.2.2.1]
    rw [show (exportRow R).getD 3 [] = jsCell (jsGet R.row (str "location")) from rfl]
    rw [jsCell_eq]
    rfl
  · rw [(jsGet_mkRow_export (exportRow R)).2.2.2.2.1]
    rw [show (exportRow R).getD 4 [] = jsCell (jsGet R.row (str "timestamp")) from rfl]
    rw [jsCell_eq]
    rfl
  · rw [(jsGet_mkRow_export (exportRow R)).2.2.2.2.2]
    rw [show (exportRow R).getD 5 [] = jsCell (jsGet R.row (str "card_number")) from rfl]
    rw [jsCell_eq]
    rfl

theorem exportLine_facts (env : JSEnv) (jit : ℕ → ℚ) (ind : ℕ → ℕ → ℚ) (content : Str) :
    ∀ r ∈ performAnalysis env jit ind (parseCSV content),
      ('\n' ∉ joinChar ',' (exportRow r))
      ∧ trimChars (joinChar ',' (exportRow r)) ≠ []
      ∧ (joinChar ',' (exportRow r)).getLast? = r.status.getLast? := by
  intro r hr
  have hclean := exportRow_clean env jit ind content r hr
  obtain ⟨hall, hne, hex, hlast⟩ :=
    status_str_clean r.status (performAnalysis_status_cases env jit ind (parseCSV content) r hr)
  refine ⟨?_, ?_, ?_⟩
  · exact not_mem_joinChar ',' (exportRow r) '\n' (by decide)
      (fun x hx => (hclean x hx).2.2)
  · obtain ⟨c, hcm, hcs⟩ := hex
    have hcell : jsCell (some r.status) ∈ exportRow r := by simp [exportRow]
    have hmem : c ∈ joinChar ',' (exportRow r) :=
      mem_joinChar ',' (exportRow r) (jsCell (some r.status)) hcell c
        (by rw [jsCell_some_ne_nil r.status hne]; exact hcm)
    exact trimChars_ne_nil _ c hmem hcs
  · have hsplit : exportRow r
        = [jsCell (jsGet r.row (str "transaction_id")),
           jsCell (jsGet r.row (str "amount")),
           jsCell (jsGet r.row (str "merchant")),
           jsCell (jsGet r.row (str "location")),
           jsCell (jsGet r.row (str "timestamp")),
           jsCell (jsGet r.row (str "card_number")),
           scoreCell r.riskScore] ++ [jsCell (some r.status)] := rfl
    rw [hsplit,
      joinChar_getLast? ',' _ (jsCell (some r.status))
        (by rw [jsCell_some_ne_nil r.status hne]; exact hne),
      jsCell_some_ne_nil r.status hne]

theorem exportToCSV_trim_id (env : JSEnv) (jit : ℕ → ℚ) (ind : ℕ → ℕ → ℚ) (content : Str) :
    trimChars (exportToCSV (performAnalysis env jit ind (parseCSV content)))
      = exportToCSV (performAnalysis env jit ind (parseCSV content)) := by
  apply trimChars_eq_self_of_ends
  · intro c hc
    have hhead : (exportToCSV (performAnalysis env jit ind (parseCSV content))).head?
        = some 'T' := by
      have h1 : exportToCSV (performAnalysis env jit ind (parseCSV content))
          = joinChar '\n' (joinChar ',' exportHeaders ::
              (performAnalysis env jit ind (parseCSV content)).map
                (fun r => joinChar ',' (exportRow r))) := rfl
      rw [h1, joinChar_head?_ne_nil '\n' (joinChar ',' exportHeaders) _ (by decide)]
      decide
    rw [hhead] at hc
    injection hc with hcc
    rw [← hcc]
    decide
  · intro c hc
    rcases List.eq_nil_or_concat (performAnalysis env jit ind (parseCSV content)) with
      hres | ⟨rs, rl, hres⟩
    · rw [hres] at hc
      have hlast : (exportToCSV []).getLast? = some 's' := by decide
      rw [hlast] at hc
      injection hc with hcc
      rw [← hcc]
      decide
    · rw [List.concat_eq_append] at hres
      have hrl_mem : rl ∈ performAnalysis env jit ind (parseCSV content) := by
        rw [hres]
        exact List.mem_append.mpr (Or.inr (List.mem_singleton.mpr rfl))
      obtain ⟨-, -, hlastline⟩ := exportLine_facts env jit ind content rl hrl_mem
      obtain ⟨-, hne, -, hlast⟩ :=
        status_str_clean rl.status
          (performAnalysis_status_cases env jit ind (parseCSV content) rl hrl_mem)
      have hexpand : exportToCSV (performAnalysis env jit ind (parseCSV content))
          = joinChar '\n'
              ((joinChar ',' exportHeaders ::
                  rs.map (fun r => joinChar ',' (exportRow r)))
                ++ [joinChar ',' (exportRow rl)]) := by
        show joinChar '\n' (joinChar ',' exportHeaders ::
            (performAnalysis env jit ind (parseCSV content)).map
              (fun r => joinChar ',' (exportRow r))) = _
        rw [hres, List.map_append, List.map_singleton, List.cons_append]
      rw [hexpand] at hc
      have hlast_ne : joinChar ',' (exportRow rl) ≠ [] := by
        intro h0
        rw [h0] at hlastline
        rw [List.getLast?_eq_getLast rl.status hne] at hlastline
        exact Option.noConfusion hlastline
      rw [joinChar_getLast? '\n' _ _ hlast_ne, hlastline] at hc
      exact hlast c hc

/-- C6: exporting the Result Set produced by the pipeline from parsed
rows and re-parsing the exported text yields exactly one row per
original row, in order, and — ignoring the added Risk Score and Status
columns — each re-parsed row's six transaction columns hold exactly the
original row's field values (a field the original row lacked comes back
as the empty string, matching the `|| ''` applied at export time). -/
theorem exportToCSV_parseCSV_roundTrip (env : JSEnv) (jit : ℕ → ℚ) (ind : ℕ → ℕ → ℚ)
    (content : Str) :
    (parseCSV (exportToCSV (performAnalysis env jit ind (parseCSV content)))).length
      = (parseCSV content).length
    ∧ ∀ i : ℕ, ∀ pr ∈ txnFieldPairs,
        ((parseCSV (exportToCSV (performAnalysis env jit ind (parseCSV content))))[i]?).map
            (fun rep => jsGet rep pr.1)
          = ((parseCSV content)[i]?).map (fun orig => some (jsGetD orig pr.2 [])) := by
  have hclean := exportRow_clean env jit ind content
  have hlinefacts := exportLine_facts env jit ind content
  have hlines : jsLines (exportToCSV (performAnalysis env jit ind (parseCSV content)))
      = joinChar ',' exportHeaders ::
          (performAnalysis env jit ind (parseCSV content)).map
            (fun r => joinChar ',' (exportRow r)) := by
    unfold jsLines
    rw [exportToCSV_trim_id env jit ind content]
    show splitOnChar '\n' (joinChar '\n' (joinChar ',' exportHeaders ::
        (performAnalysis env jit ind (parseCSV content)).map
          (fun r => joinChar ',' (exportRow r)))) = _
    apply splitOnChar_joinChar
    · simp
    · intro x hx
      rcases List.mem_cons.mp hx with rfl | hx2
      · decide
      · rcases List.mem_map.mp hx2 with ⟨r, hrm, rfl⟩
        exact (hlinefacts r hrm).1
  have hheaders : csvHeaders (exportToCSV (performAnalysis env jit ind (parseCSV content)))
      = exportHeaders := by
    unfold csvHeaders
    rw [hlines]
    show (splitOnChar ',' (joinChar ',' exportHeaders)).map trimChars = exportHeaders
    decide
  have hfilter : ((performAnalysis env jit ind (parseCSV content)).map
        (fun r => joinChar ',' (exportRow r))).filter
          (fun l => !(trimChars l).isEmpty)
      = (performAnalysis env jit ind (parseCSV content)).map
          (fun r => joinChar ',' (exportRow r)) := by
    apply List.filter_eq_self.mpr
    intro a ha
    rcases List.mem_map.mp ha with ⟨r, hrm, rfl⟩
    have h2 := (hlinefacts r hrm).2.1
    cases htc : trimChars (joinChar ',' (exportRow r)) with
    | nil => exact absurd htc h2
    | cons a as => rfl
  have hparse : parseCSV (exportToCSV (performAnalysis env jit ind (parseCSV content)))
      = (performAnalysis env jit ind (parseCSV content)).map
          (fun r => mkRow exportHeaders (exportRow r)) := by
    rw [show parseCSV (exportToCSV (performAnalysis env jit ind (parseCSV content)))
        = (((jsLines (exportToCSV (performAnalysis env jit ind (parseCSV content)))).drop
              1).filter (fun l => !(trimChars l).isEmpty)).map
            (fun l =>
              mkRow (csvHeaders (exportToCSV (performAnalysis env jit ind (parseCSV content))))
                ((splitOnChar ',' l).map trimChars)) from rfl]
    rw [hheaders, hlines]
    rw [show (joinChar ',' exportHeaders ::
        (performAnalysis env jit ind (parseCSV content)).map
          (fun r => joinChar ',' (exportRow r))).drop 1
      = (performAnalysis env jit ind (parseCSV content)).map
          (fun r => joinChar ',' (exportRow r)) from rfl]
    rw [hfilter, List.map_map]
    apply List.map_congr_left
    intro r hrm
    have hsplit : splitOnChar ',' (joinChar ',' (exportRow r)) = exportRow r :=
      splitOnChar_joinChar ',' (exportRow r) (by simp [exportRow])
        (fun x hx => (hclean r hrm x hx).2.1)
    have htr : ∀ x ∈ exportRow r, trimChars x = x := fun x hx => (hclean r hrm x hx).1
    have hmaptr : (exportRow r).map trimChars = exportRow r := by
      rw [List.map_congr_left htr]
      simp
    show mkRow exportHeaders
        ((splitOnChar ',' (joinChar ',' (exportRow r))).map trimChars)
      = mkRow exportHeaders (exportRow r)
    rw [hsplit, hmaptr]
  constructor
  · rw [hparse, List.length_map, performAnalysis_length]
  · intro i pr hpr
    rw [hparse, List.getElem?_map, performAnalysis_getElem?]
    cases hri : (parseCSV content)[i]? with
    | none => rfl
    | some t =>
      simp only [Option.map_some']
      fin_cases hpr
      · exact congrArg some ((export_field_roundtrip _).1)
      · exact congrArg some ((export_field_roundtrip _).2.1)
      · exact congrArg some ((export_field_roundtrip _).2.2.1)
      · exact congrArg some ((export_field_roundtrip _).2.2.2.1)
      · exact congrArg some ((export_field_roundtrip _).2.2.2.2.1)
      · exact congrArg some ((export_field_roundtrip _).2.2.2.2.2)

/-- Witness for C6 at the one-row sheet `"amount\n5"`, field pair
`(Amount, amount)`, index 0. -/
theorem exportToCSV_parseCSV_roundTrip_witness :
    (str "Amount", str "amount") ∈ txnFieldPairs
    ∧ ((parseCSV (exportToCSV (performAnalysis envA jitZero indZero
          (parseCSV (str "amount\n5")))))[0]?).map
            (fun rep => jsGet rep (str "Amount"))
      = ((parseCSV (str "amount\n5"))[0]?).map
          (fun orig => some (jsGetD orig (str "amount") [])) :=
  ⟨by decide,
    (exportToCSV_parseCSV_roundTrip envA jitZero indZero (str "amount\n5")).2 0
      (str "Amount", str "amount") (by decide)⟩
